import Mathlib

/-!
Verification of the ForenSight static file-analysis core
(`Forensight/Core/File_Analyzer.py`): the MP4 container scanner
(`scan_mp4_structure`), printable-string extractor (`extract_ascii_strings`),
Shannon-entropy estimator (`shannon_entropy`), extension-mismatch check
(from `analyze_file`), and the risk aggregator (`compute_risk_score`).

Bytes are modelled as natural numbers (the scanner and extractor never rely
on the 0..255 bound); the entropy estimator is modelled over `Fin 256`,
matching the 256-bucket histogram of byte values.  Python exceptions are
modelled with `Except`, and the scanner loop carries explicit fuel so that
its termination is itself a provable statement rather than an assumption.
-/

/-! ## MP4 container scanner (`scan_mp4_structure`) -/

/-- Big-endian interpretation of a byte list, as in `struct.unpack(">I", ...)`. -/
def beNat (l : List Nat) : Nat := l.foldl (fun a b => a * 256 + b) 0

/-- The 32-bit big-endian size field read at `off`:
`struct.unpack(">I", data[offset:offset+4])[0]`. -/
def readU32 (data : List Nat) (off : Nat) : Nat := beNat ((data.drop off).take 4)

/-- Error text of `struct.error` when the sliced buffer is short. -/
def unpackErrMsg : String := "unpack requires a buffer of 4 bytes"

/-- `struct.unpack` raises when the slice `data[offset:offset+4]` has fewer
than 4 bytes; otherwise it yields the big-endian word. -/
def readU32E (data : List Nat) (off : Nat) : Except String Nat :=
  if off + 4 ≤ data.length then Except.ok (readU32 data off) else Except.error unpackErrMsg

/-- The atom/type tag `data[offset+4:offset+8]` (a Python slice never raises). -/
def tagAt (data : List Nat) (off : Nat) : List Nat := (data.drop (off + 4)).take 4

/-- ASCII bytes of a string literal (used for the atom table and signatures). -/
def asciiBytes (s : String) : List Nat := s.data.map Char.toNat

/-- The `COMMON_MP4_ATOMS` allow-list of known box types. -/
def COMMON_MP4_ATOMS : List (List Nat) :=
  [asciiBytes "ftyp", asciiBytes "moov", asciiBytes "mdat", asciiBytes "free",
   asciiBytes "mvhd", asciiBytes "trak", asciiBytes "mdia", asciiBytes "minf",
   asciiBytes "stbl", asciiBytes "udta"]

/-- Continuation byte test for UTF-8 (`0x80..0xBF`). -/
def contByte (b : Nat) : Bool := decide (128 ≤ b) && decide (b ≤ 191)

/-- First-continuation restriction for 3-byte sequences (E0/ED specials). -/
def cont3 (b c : Nat) : Bool :=
  if b = 224 then decide (160 ≤ c) && decide (c ≤ 191)
  else if b = 237 then decide (128 ≤ c) && decide (c ≤ 159)
  else contByte c

/-- First-continuation restriction for 4-byte sequences (F0/F4 specials). -/
def cont4 (b c : Nat) : Bool :=
  if b = 240 then decide (144 ≤ c) && decide (c ≤ 191)
  else if b = 244 then decide (128 ≤ c) && decide (c ≤ 143)
  else contByte c

/-- Model of `bytes.decode("utf-8", errors="ignore")`: decode well-formed
UTF-8 sequences, drop bytes that do not start a valid sequence.  On the
ASCII range (the only range the proofs evaluate) this is exact. -/
def decodeUtf8IgnoreAux : Nat → List Nat → List Char
  | _, [] => []
  | 0, _ => []
  | Nat.succ fuel, b :: bs =>
    if b < 128 then Char.ofNat b :: decodeUtf8IgnoreAux fuel bs
    else if 194 ≤ b ∧ b ≤ 223 then
      match bs with
      | c :: bs2 =>
        if contByte c then
          Char.ofNat ((b - 192) * 64 + (c - 128)) :: decodeUtf8IgnoreAux fuel bs2
        else decodeUtf8IgnoreAux fuel bs
      | [] => []
    else if 224 ≤ b ∧ b ≤ 239 then
      match bs with
      | c :: d :: bs3 =>
        if cont3 b c && contByte d then
          Char.ofNat ((b - 224) * 4096 + (c - 128) * 64 + (d - 128)) ::
            decodeUtf8IgnoreAux fuel bs3
        else decodeUtf8IgnoreAux fuel bs
      | _ => decodeUtf8IgnoreAux fuel bs
    else if 240 ≤ b ∧ b ≤ 244 then
      match bs with
      | c :: d :: e :: bs4 =>
        if cont4 b c && contByte d && contByte e then
          Char.ofNat ((b - 240) * 262144 + (c - 128) * 4096 + (d - 128) * 64 + (e - 128))
            :: decodeUtf8IgnoreAux fuel bs4
        else decodeUtf8IgnoreAux fuel bs
      | _ => decodeUtf8IgnoreAux fuel bs
    else decodeUtf8IgnoreAux fuel bs

/-- The decoder: fuel `l.length` always suffices, since every step consumes
at least one byte. -/
def decodeUtf8Ignore (l : List Nat) : List Char := decodeUtf8IgnoreAux l.length l

/-- Decode a byte list to a `String` (`bytes.decode("utf-8", "ignore")`). -/
def strOfBytes (l : List Nat) : String := String.mk (decodeUtf8Ignore l)

/-- Issue text `f"Unrecognized atom: {atom.decode(errors='ignore')}"`. -/
def unrecognizedMsg (atom : List Nat) : String := "Unrecognized atom: " ++ strOfBytes atom

/-- Issue text `f"Suspicious atom size at offset {offset}"`. -/
def suspiciousMsg (off : Nat) : String := "Suspicious atom size at offset " ++ toString off

/-- Python's `sig in data` substring test on bytes. -/
def containsSig (data sig : List Nat) : Bool :=
  data.tails.any (fun t => sig.isPrefixOf t)

def sigMZ : List Nat := asciiBytes "MZ"
def sigZIP : List Nat := [80, 75, 3, 4]
def sigPDF : List Nat := asciiBytes "%PDF"

/-- The position-agnostic embedded-signature pass: one issue per signature
family found, in the insertion order of the Python dict (MZ, PK, %PDF). -/
def embeddedSigIssues (data : List Nat) : List String :=
  (if containsSig data sigMZ then ["Embedded EXE"] else []) ++
  (if containsSig data sigZIP then ["Embedded ZIP"] else []) ++
  (if containsSig data sigPDF then ["Embedded PDF"] else [])

/-- The `while offset + 8 <= len(data)` box walk of `scan_mp4_structure`,
with explicit fuel (`none` = fuel exhausted, i.e. a would-be infinite loop)
and an `Except` layer modelling a raised parsing exception.  The error
payload is the issue list with the exception text appended, exactly as the
`except` clause of the source produces it. -/
def walkE : Nat → List Nat → Nat → List String → Option (Except (List String) (List String))
  | 0, _, _, _ => none
  | Nat.succ fuel, data, off, issues =>
    if off + 8 ≤ data.length then
      match readU32E data off with
      | Except.error e => some (Except.error (issues ++ [e]))
      | Except.ok size =>
        let issues1 :=
          if tagAt data off ∈ COMMON_MP4_ATOMS then issues
          else issues ++ [unrecognizedMsg (tagAt data off)]
        if size < 8 ∨ size > data.length then
          some (Except.ok (issues1 ++ [suspiciousMsg off]))
        else walkE fuel data (off + size) issues1
    else some (Except.ok issues)

/-- `scan_mp4_structure`: run the box walk from offset 0, then (when no
exception was raised) append the embedded-signature issues.  On an exception
the signature pass is skipped, as in the source (the `except` clause follows
the whole `try` body). -/
def scan_mp4_structure (data : List Nat) : List String :=
  match walkE (data.length + 1) data 0 [] with
  | some (Except.ok issues) => issues ++ embeddedSigIssues data
  | some (Except.error issues) => issues
  | none => []

/-- Spec-side well-formedness of a box stream ("a sequence of boxes, each
with declared size >= 8 and a type tag in the known-box allow-list, whose
sizes sum exactly to the total length"), phrased on walk offsets. -/
inductive GoodFrom (data : List Nat) : Nat → Prop where
  | done : GoodFrom data data.length
  | box (off : Nat) : off + 8 ≤ data.length → 8 ≤ readU32 data off →
      tagAt data off ∈ COMMON_MP4_ATOMS →
      GoodFrom data (off + readU32 data off) → GoodFrom data off

/-! ## String extractor (`extract_ascii_strings`) -/

/-- A printable-ASCII byte, the character class `[ -~]` (0x20..0x7E). -/
def isPrintableByte (b : Nat) : Bool := decide (32 ≤ b) && decide (b ≤ 126)

/-- Maximal printable runs, as `re.findall(rb"[ -~]{n,}")` finds them
(before the length filter); `cur` is the reversed run in progress. -/
def asciiRunsAux : List Nat → List Nat → List (List Nat)
  | [], cur => if cur.isEmpty then [] else [cur.reverse]
  | b :: bs, cur =>
    if isPrintableByte b then asciiRunsAux bs (b :: cur)
    else (if cur.isEmpty then [] else [cur.reverse]) ++ asciiRunsAux bs []

/-- Model of the Python `set` deduplication: drop later duplicates.  The
iteration order of a CPython `str` set is implementation-defined; the claims
proved here depend only on order-independent facts, and this model's order
is a fixed deterministic choice. -/
def dedupKeepFirst : List String → List String → List String
  | [], _ => []
  | s :: ss, seen =>
    if s ∈ seen then dedupKeepFirst ss seen else s :: dedupKeepFirst ss (s :: seen)

/-- `extract_ascii_strings(path, min_length, limit)`: maximal printable runs
of length ≥ `min_length`, decoded, deduplicated, truncated to `limit`. -/
def extract_ascii_strings (data : List Nat) (min_length limit : Nat) : List String :=
  (dedupKeepFirst
    (((asciiRunsAux data []).filter (fun r => min_length ≤ r.length)).map strOfBytes) []).take limit

/-- Spec-side shape of an extracted string: at least `min_length` characters,
all of them printable ASCII (0x20..0x7E). -/
def goodExtractedString (min_length : Nat) (s : String) : Bool :=
  decide (min_length ≤ s.length) &&
    s.data.all (fun c => decide (32 ≤ c.toNat) && decide (c.toNat ≤ 126))

/-! ## Risk aggregator (`compute_risk_score`) -/

/-- The fields of the report `compute_risk_score` reads.  Entropy is a
rational, a lossless carrier for every IEEE double the source can store. -/
structure RiskReport where
  extension_mismatch : Bool
  entropy : ℚ
  suspicious_strings : List String
  mp4_warnings : List String

/-- `compute_risk_score`: the sequential accumulation of the four weighted
rules, then `min(score, 100)`, exactly in source order. -/
def compute_risk_score (report : RiskReport) : Nat × List String :=
  let p0 : Nat × List String := (0, [])
  let p1 := if report.extension_mismatch = true
    then (p0.1 + 25, p0.2 ++ ["Extension mismatch"]) else p0
  let p2 := if (7.5 : ℚ) ≤ report.entropy
    then (p1.1 + 20, p1.2 ++ ["High entropy"]) else p1
  let p3 := if report.suspicious_strings ≠ []
    then (p2.1 + 20, p2.2 ++ ["Suspicious strings"]) else p2
  let p4 := if report.mp4_warnings ≠ []
    then (p3.1 + 20, p3.2 ++ ["MP4 structural anomalies"]) else p3
  (min p4.1 100, p4.2)

/-! ## Extension-mismatch check (`analyze_file`, lines 315-317) -/

/-- Python's `needle in hay` substring test on strings. -/
def strContains (hay needle : String) : Bool :=
  hay.data.tails.any (fun t => needle.data.isPrefixOf t)

/-- Python's `str.lower()` as per-character case mapping (exact on the
ASCII alphabet that file-extension tokens use). -/
def strLower (s : String) : String := String.mk (s.data.map Char.toLower)

/-- The mismatch check of `analyze_file`: the claimed extension token is
lower-cased; the flag is set iff it is non-empty (`if extension`) and does
not occur in the mime string (`extension not in report["mime_type"]`). -/
def extension_mismatch (claimed_ext mime : String) : Bool :=
  decide (strLower claimed_ext ≠ "") && ! strContains mime (strLower claimed_ext)

/-! ## Shannon entropy (`shannon_entropy`) -/

/-- The graph of `shannon_entropy`: `r` is the value returned on `data`.
Empty input yields `0.0`; otherwise the byte-histogram entropy
`-Σ (count/len)·log2(count/len)` over the values present (the support of
`Counter(data)`), rounded to 4 decimals (`round(x, 4)`, modelled as
round-half-up on reals; the bounds proved are insensitive to the tie rule). -/
def shannon_entropy_rel (data : List (Fin 256)) (r : ℝ) : Prop :=
  r = if data = [] then 0 else
    (((round ((-(∑ v ∈ data.toFinset,
        ((data.count v : ℝ) / (data.length : ℝ)) *
          Real.logb 2 ((data.count v : ℝ) / (data.length : ℝ)))) * 10000) : ℤ) : ℝ) / 10000)

/-! ## Concrete inputs used by the claim scenarios -/

/-- A single box `[size=4][type="xxxx"]`: 8 bytes, declared size 4. -/
def c3data : List Nat := [0, 0, 0, 4, 120, 120, 120, 120]

/-- 24 bytes: a 16-byte `free` box, then at offset 16 a `free` box declaring
size 16 while only 8 bytes remain (16 ≤ total length 24). -/
def c2bad : List Nat :=
  [0, 0, 0, 16, 102, 114, 101, 101, 0, 0, 0, 0, 0, 0, 0, 0, 0, 0, 0, 16, 102, 114, 101, 101]

/-- A box declaring size 0 with known tag `ftyp` (the size-0 loop hazard). -/
def c2zero : List Nat := [0, 0, 0, 0, 102, 116, 121, 112]

/-- A well-formed stream (one 10-byte `free` box) whose payload is `b"MZ"`. -/
def freeMZ : List Nat := [0, 0, 0, 10, 102, 114, 101, 101, 77, 90]

/-- Two 8-byte `free` boxes filling the file exactly. -/
def freeStream : List Nat :=
  [0, 0, 0, 8, 102, 114, 101, 101, 0, 0, 0, 8, 102, 114, 101, 101]

/-! ## Scanner lemmas -/

/-- One unfolding of the walk when the loop guard holds: the 4-byte size
read cannot fail, the unrecognized-tag check runs, then the size check. -/
theorem walkE_succ_of_guard (fuel : Nat) (data : List Nat) (off : Nat) (issues : List String)
    (hg : off + 8 ≤ data.length) :
    walkE (fuel + 1) data off issues =
      (if readU32 data off < 8 ∨ readU32 data off > data.length then
        some (Except.ok ((if tagAt data off ∈ COMMON_MP4_ATOMS then issues
          else issues ++ [unrecognizedMsg (tagAt data off)]) ++ [suspiciousMsg off]))
      else walkE fuel data (off + readU32 data off)
        (if tagAt data off ∈ COMMON_MP4_ATOMS then issues
          else issues ++ [unrecognizedMsg (tagAt data off)])) := by
  have hr : readU32E data off = Except.ok (readU32 data off) := by
    unfold readU32E
    rw [if_pos (by omega)]
  simp only [walkE, if_pos hg, hr]

/-- One unfolding of the walk when the loop guard fails: the walk stops. -/
theorem walkE_succ_of_not_guard (fuel : Nat) (data : List Nat) (off : Nat)
    (issues : List String) (hg : ¬ off + 8 ≤ data.length) :
    walkE (fuel + 1) data off issues = some (Except.ok issues) := by
  simp only [walkE, if_neg hg]

/-- With fuel exceeding the remaining byte count the walk always finishes
normally: it neither exhausts the fuel nor raises an exception. -/
theorem walkE_isOk : ∀ (fuel : Nat) (data : List Nat) (off : Nat) (issues : List String),
    data.length - off < fuel → ∃ l, walkE fuel data off issues = some (Except.ok l) := by
  intro fuel
  induction fuel with
  | zero => intro data off issues h; omega
  | succ f ih =>
    intro data off issues h
    by_cases hg : off + 8 ≤ data.length
    · rw [walkE_succ_of_guard f data off issues hg]
      by_cases hs : readU32 data off < 8 ∨ readU32 data off > data.length
      · exact ⟨_, by rw [if_pos hs]⟩
      · rw [if_neg hs]
        exact ih data (off + readU32 data off) _ (by omega)
    · exact ⟨issues, walkE_succ_of_not_guard f data off issues hg⟩

/-- Offsets of a well-formed stream never pass the end of the data. -/
theorem GoodFrom.le_length {data : List Nat} {off : Nat} (h : GoodFrom data off) :
    off ≤ data.length := by
  induction h with
  | done => exact Nat.le_refl _
  | box off hlen hsize htag hrec ih => omega

/-- On a well-formed stream the walk records nothing: every tag is known,
every size is ≥ 8 and within the file, and the walk ends exactly at the
end of the data. -/
theorem walkE_of_goodFrom {data : List Nat} :
    ∀ {off : Nat}, GoodFrom data off → ∀ (fuel : Nat) (issues : List String),
      data.length - off < fuel → walkE fuel data off issues = some (Except.ok issues) := by
  intro off h
  induction h with
  | done =>
    intro fuel issues hf
    cases fuel with
    | zero => omega
    | succ f => exact walkE_succ_of_not_guard f data data.length issues (by omega)
  | box off hlen hsize htag hrec ih =>
    intro fuel issues hf
    cases fuel with
    | zero => omega
    | succ f =>
      rw [walkE_succ_of_guard f data off issues hlen]
      have hle : off + readU32 data off ≤ data.length := hrec.le_length
      rw [if_neg (by omega), if_pos htag]
      exact ih f issues (by omega)

/-! ## C2 / C3: the malformed-size rule -/

/-- C2 (amended): during the box walk, a box whose declared size is below 8
or above the TOTAL file length gets "Suspicious atom size at offset `<off>`"
recorded (after the unrecognized-tag check for the same box) and the walk
returns immediately, processing no further boxes — for any remaining fuel. -/
theorem C2_suspicious_size_amended (data : List Nat) (off : Nat) (issues : List String)
    (fuel : Nat) (hg : off + 8 ≤ data.length)
    (hs : readU32 data off < 8 ∨ readU32 data off > data.length) :
    walkE (fuel + 1) data off issues =
      some (Except.ok ((if tagAt data off ∈ COMMON_MP4_ATOMS then issues
        else issues ++ [unrecognizedMsg (tagAt data off)]) ++ [suspiciousMsg off])) := by
  rw [walkE_succ_of_guard fuel data off issues hg, if_pos hs]

/-- C2 witness: a size-0 `ftyp` box at offset 0 yields exactly the
suspicious-size issue and the walk stops. -/
theorem C2_suspicious_size_amended_witness :
    walkE (4 + 1) c2zero 0 [] = some (Except.ok ["Suspicious atom size at offset 0"]) := by
  simpa +decide using C2_suspicious_size_amended c2zero 0 [] 4 (by decide) (by decide)

/-- C2 counterexample: in `c2bad` the box at offset 16 declares size 16
while only 8 bytes remain, yet — because the code compares against the
TOTAL length, not the remaining length — the scanner records no issue at
all and the walk continues past the box. -/
theorem C2_counterexample :
    16 + 8 ≤ c2bad.length ∧ c2bad.length - 16 < readU32 c2bad 16 ∧
      scan_mp4_structure c2bad = [] := by decide

/-- C3 (amended): the single box `[size=4][type="xxxx"]` produces exactly
two issues — the unrecognized-tag issue first, then the suspicious-size
issue with the source's spelling — and the walk halts there. -/
theorem C3_single_bad_box_amended : scan_mp4_structure c3data =
    ["Unrecognized atom: xxxx", "Suspicious atom size at offset 0"] := by decide

/-- C3 counterexample: the scanner does not return the single issue list
claimed (it returns two issues, and the message text differs). -/
theorem C3_counterexample : (scan_mp4_structure c3data).length = 2 ∧
    scan_mp4_structure c3data ≠ ["suspicious box size at offset 0"] := by decide

/-! ## C4: well-formed streams -/

/-- C4 (amended): a well-formed box stream that does not contain any of the
three embedded foreign signatures as a byte substring yields zero issues. -/
theorem C4_wellformed_clean_amended (data : List Nat) (hgood : GoodFrom data 0)
    (h1 : containsSig data sigMZ = false) (h2 : containsSig data sigZIP = false)
    (h3 : containsSig data sigPDF = false) :
    scan_mp4_structure data = [] := by
  unfold scan_mp4_structure
  rw [walkE_of_goodFrom hgood (data.length + 1) [] (by omega)]
  simp [embeddedSigIssues, h1, h2, h3]

/-- C4 witness: two 8-byte `free` boxes filling the file exactly scan clean. -/
theorem C4_wellformed_clean_amended_witness : scan_mp4_structure freeStream = [] :=
  C4_wellformed_clean_amended freeStream
    (by
      apply GoodFrom.box 0 (by decide) (by decide) (by decide)
      rw [show 0 + readU32 freeStream 0 = 8 from by decide]
      apply GoodFrom.box 8 (by decide) (by decide) (by decide)
      rw [show 8 + readU32 freeStream 8 = freeStream.length from by decide]
      exact GoodFrom.done)
    (by decide) (by decide) (by decide)

/-- C4 counterexample: `freeMZ` is a well-formed box stream (one 10-byte
`free` box summing exactly to the length), yet the scanner reports
"Embedded EXE" because the payload contains the bytes `MZ`. -/
theorem C4_counterexample : GoodFrom freeMZ 0 ∧ scan_mp4_structure freeMZ = ["Embedded EXE"] := by
  constructor
  . apply GoodFrom.box 0 (by decide) (by decide) (by decide)
    rw [show 0 + readU32 freeMZ 0 = freeMZ.length from by decide]
    exact GoodFrom.done
  . decide

/-! ## C8 / C9: totality of the scanner -/

/-- C8: on every input the box walk finishes normally — it never raises
(the only fallible primitive, the 4-byte unpack, is protected by the loop
guard) — and the scanner returns the walk's issues plus the
embedded-signature issues. -/
theorem C8_scanner_total (data : List Nat) :
    ∃ issues, walkE (data.length + 1) data 0 [] = some (Except.ok issues) ∧
      scan_mp4_structure data = issues ++ embeddedSigIssues data := by
  obtain ⟨l, hl⟩ := walkE_isOk (data.length + 1) data 0 [] (by omega)
  exact ⟨l, hl, by unfold scan_mp4_structure; rw [hl]⟩

/-- C9: with fuel `length + 1` the walk never exhausts its fuel: the loop
terminates on every finite input (size-0 boxes included, since the size
check breaks before the offset would stay put). -/
theorem C9_walk_terminates (data : List Nat) :
    (walkE (data.length + 1) data 0 []).isSome = true := by
  obtain ⟨l, hl⟩ := walkE_isOk (data.length + 1) data 0 [] (by omega)
  rw [hl]
  rfl

/-! ## C1 / C10: the risk aggregator -/

/-- C1 (amended): the aggregator returns the sum of the weights of the
triggered rules clamped to 100, with reasons in rule-table order; the
fourth reason reads "MP4 structural anomalies" (not "Container structural
anomalies" as the specification table states). -/
theorem C1_risk_score_amended (em : Bool) (ent : ℚ) (ss mw : List String) :
    compute_risk_score ⟨em, ent, ss, mw⟩ =
      (min ((if em = true then 25 else 0) + (if 7.5 ≤ ent then 20 else 0) +
        (if ss ≠ [] then 20 else 0) + (if mw ≠ [] then 20 else 0)) 100,
       (if em = true then ["Extension mismatch"] else []) ++
       (if 7.5 ≤ ent then ["High entropy"] else []) ++
       (if ss ≠ [] then ["Suspicious strings"] else []) ++
       (if mw ≠ [] then ["MP4 structural anomalies"] else [])) := by
  simp only [compute_risk_score]
  split_ifs <;> simp

/-- C1 counterexample: with only the container rule triggered the code
emits the reason "MP4 structural anomalies", so the claimed reason list
(with "Container structural anomalies") is not returned. -/
theorem C1_counterexample : compute_risk_score ⟨false, 0, [], ["w"]⟩ ≠
    (20, ["Container structural anomalies"]) := by
  have h : compute_risk_score ⟨false, 0, [], ["w"]⟩ = (20, ["MP4 structural anomalies"]) := by
    norm_num [compute_risk_score]
  rw [h]
  decide

/-- C10: the score is the unclamped rule-weight sum — so the clamp to 100
is never active — and is bounded by 25+20+20+20 = 85. -/
theorem C10_score_bound (r : RiskReport) :
    (compute_risk_score r).1 ≤ 85 ∧
      (compute_risk_score r).1 =
        (if r.extension_mismatch = true then 25 else 0) + (if 7.5 ≤ r.entropy then 20 else 0) +
        (if r.suspicious_strings ≠ [] then 20 else 0) +
        (if r.mp4_warnings ≠ [] then 20 else 0) := by
  rcases r with ⟨em, ent, ss, mw⟩
  simp only [compute_risk_score]
  split_ifs <;> simp

/-! ## C6: the extension-mismatch check -/

/-- Boolean substring test agrees with the existence of a decomposition. -/
theorem strContains_iff (hay needle : String) :
    strContains hay needle = true ↔ ∃ l r, l ++ needle.data ++ r = hay.data := by
  unfold strContains
  rw [List.any_eq_true]
  constructor
  . rintro ⟨t, ht, hp⟩
    have hsuf : t <:+ hay.data := (List.mem_tails t hay.data).1 ht
    have hpre : needle.data <+: t := by simpa using hp
    obtain ⟨u, hu⟩ := hpre
    obtain ⟨s, hs⟩ := hsuf
    exact ⟨s, u, by rw [← hs, ← hu]; simp⟩
  . rintro ⟨l, r, h⟩
    refine ⟨needle.data ++ r, ?_, ?_⟩
    . exact (List.mem_tails _ _).2 ⟨l, by rw [← h]; simp⟩
    . simp

/-- Lower-casing preserves emptiness. -/
theorem strLower_eq_empty (s : String) : strLower s = "" ↔ s = "" := by
  cases s with
  | mk l =>
    constructor
    . intro h
      have h2 : l.map Char.toLower = [] := congrArg String.data h
      simp at h2
      rw [h2]
    . intro h
      rw [h]
      rfl

/-- C6: the mismatch flag is true iff the claimed extension is non-empty
and its lower-cased form does not occur as a substring of the mime string;
in particular the empty extension never flags. -/
theorem C6_extension_mismatch_iff (claimed_ext mime : String) :
    (extension_mismatch claimed_ext mime = true ↔
      (claimed_ext ≠ "" ∧ ¬ ∃ l r, l ++ (strLower claimed_ext).data ++ r = mime.data)) ∧
      extension_mismatch "" mime = false := by
  constructor
  . unfold extension_mismatch
    rw [Bool.and_eq_true, decide_eq_true_iff, Bool.not_eq_true',
      ← Bool.not_eq_true (strContains mime (strLower claimed_ext)), strContains_iff]
    simp only [ne_eq, strLower_eq_empty]
  . unfold extension_mismatch
    have h0 : strLower "" = "" := rfl
    rw [h0]
    simp

/-! ## C7: the string extractor -/

/-- Every run produced by the run splitter consists of printable bytes
(provided the run in progress does). -/
theorem mem_asciiRunsAux_printable : ∀ (data cur r : List Nat),
    r ∈ asciiRunsAux data cur → (∀ b ∈ cur, isPrintableByte b = true) →
    ∀ b ∈ r, isPrintableByte b = true := by
  intro data
  induction data with
  | nil =>
    intro cur r hr hcur b hb
    simp only [asciiRunsAux] at hr
    split at hr
    . simp at hr
    . simp at hr
      subst hr
      exact hcur b (by simpa using hb)
  | cons x xs ih =>
    intro cur r hr hcur b hb
    simp only [asciiRunsAux] at hr
    split at hr
    . exact ih (x :: cur) r hr (by
        intro b2 hb2
        rcases List.mem_cons.1 hb2 with h | h
        . subst h; assumption
        . exact hcur b2 h) b hb
    . rcases List.mem_append.1 hr with h | h
      . split at h
        . simp at h
        . simp at h
          subst h
          exact hcur b (by simpa using hb)
      . exact ih [] r h (by simp) b hb

/-- Members of the deduplicated list come from the input and avoid `seen`. -/
theorem mem_dedupKeepFirst : ∀ (ss seen out : List String),
    out = dedupKeepFirst ss seen → ∀ s ∈ out, s ∈ ss ∧ s ∉ seen := by
  intro ss
  induction ss with
  | nil => intro seen out h s hs; rw [h] at hs; simp [dedupKeepFirst] at hs
  | cons t ts ih =>
    intro seen out h s hs
    rw [h] at hs
    simp only [dedupKeepFirst] at hs
    split at hs
    . have := ih seen _ rfl s hs
      exact ⟨List.mem_cons_of_mem t this.1, this.2⟩
    . rcases List.mem_cons.1 hs with h2 | h2
      . subst h2; exact ⟨List.mem_cons_self _ _, by assumption⟩
      . have := ih (t :: seen) _ rfl s h2
        exact ⟨List.mem_cons_of_mem t this.1, fun hc => this.2 (List.mem_cons_of_mem t hc)⟩

/-- The deduplicated list has no duplicates. -/
theorem nodup_dedupKeepFirst : ∀ (ss seen : List String), (dedupKeepFirst ss seen).Nodup := by
  intro ss
  induction ss with
  | nil => intro seen; simp [dedupKeepFirst]
  | cons t ts ih =>
    intro seen
    simp only [dedupKeepFirst]
    split
    . exact ih seen
    . refine List.Nodup.cons ?_ (ih (t :: seen))
      intro hc
      exact (mem_dedupKeepFirst ts (t :: seen) _ rfl t hc).2 (List.mem_cons_self _ _)

/-- On all-printable input the UTF-8 decoder is the identity embedding. -/
theorem decodeAux_printable : ∀ (fuel : Nat) (r : List Nat), r.length ≤ fuel →
    (∀ b ∈ r, isPrintableByte b = true) →
    decodeUtf8IgnoreAux fuel r = r.map Char.ofNat := by
  intro fuel
  induction fuel with
  | zero =>
    intro r hlen _
    have hr : r = [] := List.length_eq_zero.1 (Nat.le_zero.1 hlen)
    subst hr
    rfl
  | succ f ih =>
    intro r hlen hall
    cases r with
    | nil => rfl
    | cons b bs =>
      have hb := hall b (List.mem_cons_self _ _)
      have hb126 : b < 128 := by
        simp [isPrintableByte] at hb
        omega
      simp only [decodeUtf8IgnoreAux, if_pos hb126, List.map_cons]
      rw [ih bs (by simpa using hlen) (fun x hx => hall x (List.mem_cons_of_mem b hx))]

/-- `Char.ofNat` is value-preserving below the surrogate range. -/
theorem toNat_charOfNat (b : Nat) (hb : b < 55296) : (Char.ofNat b).toNat = b := by
  rw [Char.ofNat, dif_pos (Or.inl hb)]
  rfl

/-- C7: the extractor returns at most 200 strings, with no duplicates, and
every returned string has at least 6 characters, all printable ASCII
(0x20..0x7E).  The extractor is a pure function of the input bytes, so two
runs on identical input return the identical list. -/
theorem C7_extractor_shape (data : List Nat) :
    (extract_ascii_strings data 6 200).length ≤ 200 ∧
    (extract_ascii_strings data 6 200).Nodup ∧
    (extract_ascii_strings data 6 200).all (goodExtractedString 6) = true := by
  unfold extract_ascii_strings
  refine ⟨List.length_take_le _ _, ?_, ?_⟩
  . exact (nodup_dedupKeepFirst _ []).sublist (List.take_sublist _ _)
  . rw [List.all_eq_true]
    intro s hs
    have hs2 := List.take_subset _ _ hs
    have hs3 := (mem_dedupKeepFirst _ [] _ rfl s hs2).1
    obtain ⟨r, hrf, hsr⟩ := List.mem_map.1 hs3
    have hrmem := (List.mem_filter.1 hrf).1
    have hrlen : 6 ≤ r.length := by
      have := (List.mem_filter.1 hrf).2
      simpa using this
    have hprint := mem_asciiRunsAux_printable data [] r hrmem (by simp)
    have hdec : strOfBytes r = String.mk (r.map Char.ofNat) := by
      unfold strOfBytes decodeUtf8Ignore
      rw [decodeAux_printable r.length r (Nat.le_refl _) hprint]
    subst hsr
    rw [hdec]
    unfold goodExtractedString
    rw [Bool.and_eq_true]
    constructor
    . rw [decide_eq_true_iff]
      show 6 ≤ (String.mk (r.map Char.ofNat)).length
      simpa [String.length] using hrlen
    . rw [List.all_eq_true]
      intro c hc
      obtain ⟨b, hbr, hbc⟩ := List.mem_map.1 hc
      have hp := hprint b hbr
      simp [isPrintableByte] at hp
      subst hbc
      rw [Bool.and_eq_true, decide_eq_true_iff, decide_eq_true_iff,
        toNat_charOfNat b (by omega)]
      omega

/-! ## C5: entropy bounds -/

/-- Pointwise Gibbs-style bound used for the 256-bucket entropy maximum:
`-x log x ≤ 1/256 - x + x log 256` for `x ≥ 0` (equality at `x = 1/256`). -/
theorem negMulLog_le_aux (x : ℝ) (hx : 0 ≤ x) :
    Real.negMulLog x ≤ 1/256 - x + x * Real.log 256 := by
  rcases eq_or_lt_of_le hx with h | h
  . rw [← h]
    simp [Real.negMulLog]
  . have h256 : (0:ℝ) < 256 := by norm_num
    have hlog : Real.log (1/(256 * x)) ≤ 1/(256 * x) - 1 :=
      Real.log_le_sub_one_of_pos (by positivity)
    have hsplit : Real.log (1/(256 * x)) = -(Real.log 256 + Real.log x) := by
      rw [one_div, Real.log_inv, Real.log_mul h256.ne' h.ne']
    have hinv : x * (1/(256 * x)) = 1/256 := by
      field_simp
      ring
    have h2 : -Real.log x ≤ 1/(256*x) - 1 + Real.log 256 := by
      rw [hsplit] at hlog
      linarith
    have h3 := mul_le_mul_of_nonneg_left h2 hx
    calc Real.negMulLog x = x * (-Real.log x) := by rw [Real.negMulLog]; ring
    _ ≤ x * (1/(256*x) - 1 + Real.log 256) := h3
    _ = 1/256 - x + x * Real.log 256 := by rw [mul_add, mul_sub, hinv]; ring

set_option maxRecDepth 4000

/-- C5: the entropy value returned by `shannon_entropy` always lies in
`[0, 8]`, and on the empty input the function returns exactly `0.0`.  The
histogram has at most 256 buckets, the frequencies are in `[0, 1]` and sum
to one, so the raw entropy is in `[0, log2 256] = [0, 8]`; rounding to 4
decimals keeps the value inside the interval. -/
theorem C5_entropy_bounds (data : List (Fin 256)) (r : ℝ) (h : shannon_entropy_rel data r) :
    (0 ≤ r ∧ r ≤ 8) ∧ (data = [] → r = 0) := by
  unfold shannon_entropy_rel at h
  by_cases hd : data = []
  . rw [if_pos hd] at h
    subst h
    exact ⟨⟨le_refl 0, by norm_num⟩, fun _ => rfl⟩
  . rw [if_neg hd] at h
    have hlen : 0 < data.length := List.length_pos.2 hd
    have hL : (0:ℝ) < (data.length : ℝ) := by exact_mod_cast hlen
    have hext : ∑ v ∈ data.toFinset,
        ((data.count v : ℝ) / (data.length : ℝ)) *
          Real.logb 2 ((data.count v : ℝ) / (data.length : ℝ)) =
        ∑ v ∈ Finset.univ,
        ((data.count v : ℝ) / (data.length : ℝ)) *
          Real.logb 2 ((data.count v : ℝ) / (data.length : ℝ)) := by
      apply Finset.sum_subset (Finset.subset_univ _)
      intro v _ hv
      have hz : data.count v = 0 := by
        rw [List.count_eq_zero]
        intro hc
        exact hv (List.mem_toFinset.2 hc)
      rw [hz]
      simp
    have hp0 : ∀ v : Fin 256, (0:ℝ) ≤ (data.count v : ℝ) / (data.length : ℝ) :=
      fun v => div_nonneg (Nat.cast_nonneg _) (Nat.cast_nonneg _)
    have hp1 : ∀ v : Fin 256, (data.count v : ℝ) / (data.length : ℝ) ≤ 1 := by
      intro v
      rw [div_le_one hL]
      exact_mod_cast List.count_le_length v data
    have hcnt : ∑ v ∈ (Finset.univ : Finset (Fin 256)), (data.count v : ℝ) = (data.length : ℝ) := by
      have h1 : ∑ v ∈ (Finset.univ : Finset (Fin 256)),
          Multiset.count v (↑data : Multiset (Fin 256)) =
          Multiset.card (↑data : Multiset (Fin 256)) :=
        Multiset.sum_count_eq_card (fun a _ => Finset.mem_univ a)
      rw [Multiset.coe_card] at h1
      rw [Finset.sum_congr rfl (fun v _ => Multiset.coe_count v data)] at h1
      exact_mod_cast congrArg (fun n : Nat => (n : ℝ)) h1
    have hsum : ∑ v ∈ (Finset.univ : Finset (Fin 256)),
        (data.count v : ℝ) / (data.length : ℝ) = 1 := by
      rw [← Finset.sum_div, hcnt, div_self hL.ne']
    have hterm : ∀ v : Fin 256,
        ((data.count v : ℝ) / (data.length : ℝ)) *
          Real.logb 2 ((data.count v : ℝ) / (data.length : ℝ)) ≤ 0 := by
      intro v
      have hlb : Real.logb 2 ((data.count v : ℝ) / (data.length : ℝ)) ≤ 0 :=
        Real.logb_nonpos one_lt_two (hp0 v) (hp1 v)
      have := mul_le_mul_of_nonneg_left hlb (hp0 v)
      simpa using this
    have hH0 : 0 ≤ -(∑ v ∈ Finset.univ,
        ((data.count v : ℝ) / (data.length : ℝ)) *
          Real.logb 2 ((data.count v : ℝ) / (data.length : ℝ))) := by
      rw [neg_nonneg]
      exact Finset.sum_nonpos (fun i _ => hterm i)
    have hlog2 : (0:ℝ) < Real.log 2 := Real.log_pos one_lt_two
    have hS : ∑ v ∈ (Finset.univ : Finset (Fin 256)),
        Real.negMulLog ((data.count v : ℝ) / (data.length : ℝ)) ≤ Real.log 256 := by
      calc ∑ v ∈ Finset.univ, Real.negMulLog ((data.count v : ℝ) / (data.length : ℝ))
          ≤ ∑ v ∈ (Finset.univ : Finset (Fin 256)),
            (1/256 - (data.count v : ℝ) / (data.length : ℝ) +
              ((data.count v : ℝ) / (data.length : ℝ)) * Real.log 256) :=
            Finset.sum_le_sum (fun i _ => negMulLog_le_aux _ (hp0 i))
      _ = ((Finset.univ : Finset (Fin 256)).card : ℝ) * (1/256) - 1 + 1 * Real.log 256 := by
            rw [Finset.sum_add_distrib, Finset.sum_sub_distrib, ← Finset.sum_mul, hsum,
              Finset.sum_const, nsmul_eq_mul]
      _ ≤ Real.log 256 := by
            rw [Finset.card_univ, Fintype.card_fin]
            norm_num
    have hterm3 : ∀ v : Fin 256,
        ((data.count v : ℝ) / (data.length : ℝ)) *
          Real.logb 2 ((data.count v : ℝ) / (data.length : ℝ)) * Real.log 2 =
        ((data.count v : ℝ) / (data.length : ℝ)) *
          Real.log ((data.count v : ℝ) / (data.length : ℝ)) := by
      intro v
      rw [← Real.log_div_log]
      field_simp
      ring
    have hR : ∑ v ∈ (Finset.univ : Finset (Fin 256)),
        Real.negMulLog ((data.count v : ℝ) / (data.length : ℝ)) =
        -∑ v ∈ (Finset.univ : Finset (Fin 256)),
          ((data.count v : ℝ) / (data.length : ℝ)) *
            Real.log ((data.count v : ℝ) / (data.length : ℝ)) := by
      calc ∑ v ∈ (Finset.univ : Finset (Fin 256)),
          Real.negMulLog ((data.count v : ℝ) / (data.length : ℝ)) =
          ∑ v ∈ (Finset.univ : Finset (Fin 256)),
            -(((data.count v : ℝ) / (data.length : ℝ)) *
              Real.log ((data.count v : ℝ) / (data.length : ℝ))) :=
        Finset.sum_congr rfl (fun v _ => by rw [Real.negMulLog]; ring)
      _ = -∑ v ∈ (Finset.univ : Finset (Fin 256)),
            ((data.count v : ℝ) / (data.length : ℝ)) *
              Real.log ((data.count v : ℝ) / (data.length : ℝ)) := Finset.sum_neg_distrib
    have hconv : -(∑ v ∈ Finset.univ,
        ((data.count v : ℝ) / (data.length : ℝ)) *
          Real.logb 2 ((data.count v : ℝ) / (data.length : ℝ))) =
        (∑ v ∈ (Finset.univ : Finset (Fin 256)),
          Real.negMulLog ((data.count v : ℝ) / (data.length : ℝ))) / Real.log 2 := by
      rw [eq_div_iff hlog2.ne', neg_mul, Finset.sum_mul, hR]
      congr 1
      exact Finset.sum_congr rfl (fun v _ => hterm3 v)
    have hH8 : -(∑ v ∈ Finset.univ,
        ((data.count v : ℝ) / (data.length : ℝ)) *
          Real.logb 2 ((data.count v : ℝ) / (data.length : ℝ))) ≤ 8 := by
      rw [hconv]
      have h8 : Real.log 256 / Real.log 2 = 8 := by
        rw [show (256:ℝ) = 2^(8:ℕ) by norm_num, Real.log_pow]
        field_simp
      rw [← h8]
      exact (div_le_div_iff_of_pos_right hlog2).2 hS
    rw [hext] at h
    set H := -(∑ v ∈ Finset.univ,
        ((data.count v : ℝ) / (data.length : ℝ)) *
          Real.logb 2 ((data.count v : ℝ) / (data.length : ℝ))) with hHdef
    clear_value H
    have hr0 : (0:ℤ) ≤ round (H * 10000) := by
      rw [round_eq]
      refine Int.le_floor.2 ?_
      push_cast
      linarith [hH0]
    have hr8 : round (H * 10000) ≤ 80000 := by
      rw [round_eq]
      have hfl : (⌊H * 10000 + 1/2⌋ : ℤ) < 80001 := by
        refine Int.floor_lt.2 ?_
        push_cast
        linarith [hH8]
      omega
    refine ⟨⟨?_, ?_⟩, fun hc => absurd hc hd⟩
    . rw [h]
      exact div_nonneg (by exact_mod_cast hr0) (by norm_num)
    . rw [h]
      rw [div_le_iff₀ (by norm_num : (0:ℝ) < 10000)]
      calc ((round (H * 10000) : ℤ) : ℝ) ≤ ((80000 : ℤ) : ℝ) := by exact_mod_cast hr8
      _ = 8 * 10000 := by norm_num

/-- C5 witness: the empty input satisfies the entropy relation with value
0, which indeed lies in the interval and matches the empty-input clause. -/
theorem C5_entropy_bounds_witness :
    ((0:ℝ) ≤ 0 ∧ (0:ℝ) ≤ 8) ∧ (([] : List (Fin 256)) = [] → (0:ℝ) = 0) :=
  C5_entropy_bounds [] 0 (by simp [shannon_entropy_rel])
